import Mathlib

/-!
# Verification of the `sounding-base` data model

Shallow embedding of the `sounding-base` Rust crate.  The repository holds two
evolutions of the crate side by side:

* `src/lib.rs` — an earlier evolution (`f32` values, public fields, a stored
  Haines index `hain`, and `Sounding::validate` living in `lib.rs`); embedded
  below in namespace `V1`.
* `src/sounding.rs` — a later evolution (`f64` values, `OptionVal` cells,
  enum-indexed setters/getters, row iteration, nearest-point lookup and
  pressure-coordinate interpolation); embedded below at top level.
* `src/missing_value.rs` — the sentinel-encoded optional `OptionVal<T>`,
  shared by both evolutions.

Rust `f64`/`f32` values are modelled as `ℚ`: every operation the claims are
about (comparison, `abs`, linear interpolation) is exact rational arithmetic.
The single transcendental computation of the crate (the circular wind-direction
interpolation, using `sin`/`cos`/`atan2`) is modelled over `ℝ`.
-/

/-! ## `missing_value.rs` — sentinel-encoded optionals -/

/-- Embeds the trait `MissingData<T>`: the numeric value used to indicate
missing data (`const MISSING: T`). -/
class MissingData (α : Type) where
  MISSING : α

/-- Embeds `impl MissingData<f32> for f32` with `MISSING = -9999.0` (and the
same sentinel is used by the `f64` evolution). -/
instance : MissingData ℚ := ⟨-9999⟩

/-- Embeds `impl MissingData<i32> for i32` with `MISSING = -9999`. -/
instance : MissingData ℤ := ⟨-9999⟩

/-- Embeds `struct OptionVal<T> { value: T }` from `missing_value.rs`. -/
structure OptionVal (α : Type) where
  value : α
  deriving DecidableEq, Repr

namespace OptionVal

/-- Embeds `impl From<T> for OptionVal<T>`: wraps the raw value. -/
def of {α : Type} (src : α) : OptionVal α := ⟨src⟩

/-- Embeds `impl Into<Option<T>> for OptionVal<T>`: `None` when the stored value
equals the sentinel, `Some(value)` otherwise.  `as_option` delegates to it. -/
def as_option {α : Type} [DecidableEq α] [MissingData α] (v : OptionVal α) :
    Option α :=
  if v.value = MissingData.MISSING then none else some v.value

/-- Embeds `impl From<Option<T>> for OptionVal<T>`: a present value is stored as is,
absence is stored as the sentinel. -/
def ofOption {α : Type} [MissingData α] (src : Option α) : OptionVal α :=
  match src with
  | some val => of val
  | none => of MissingData.MISSING

/-- Embeds `impl Default for OptionVal<T>`: `OptionVal::from(T::MISSING)`. -/
def defaultMissing {α : Type} [MissingData α] : OptionVal α :=
  of (MissingData.MISSING : α)

/-- Embeds `fn unwrap(self) -> T`: returns the interior value, even when it is the
sentinel (the source documents that this method never panics). -/
def unwrap {α : Type} (v : OptionVal α) : α := v.value

end OptionVal

/-! ## `lib.rs` — the earlier evolution of the crate (`f32` values, public
fields, stored Haines index, `validate`). -/

namespace V1

/-- Embeds `struct Sounding` from `lib.rs` (`f32` fields modelled as `ℚ`,
`i32` fields as `ℤ`; the `chrono::NaiveDateTime` valid time is opaque to every
claim and is modelled as an `Option ℤ` timestamp). -/
structure Sounding where
  num : OptionVal ℤ
  valid_time : Option ℤ
  lead_time : OptionVal ℤ
  lat : OptionVal ℚ
  lon : OptionVal ℚ
  elevation : OptionVal ℚ
  /-- the source field is named `show`, a reserved word in Lean -/
  showalter : OptionVal ℚ
  li : OptionVal ℚ
  swet : OptionVal ℚ
  kinx : OptionVal ℚ
  lclp : OptionVal ℚ
  pwat : OptionVal ℚ
  totl : OptionVal ℚ
  cape : OptionVal ℚ
  lclt : OptionVal ℚ
  cins : OptionVal ℚ
  eqlv : OptionVal ℚ
  lfc : OptionVal ℚ
  brch : OptionVal ℚ
  hain : OptionVal ℤ
  pressure : List (OptionVal ℚ)
  temperature : List (OptionVal ℚ)
  wet_bulb : List (OptionVal ℚ)
  dew_point : List (OptionVal ℚ)
  theta_e : List (OptionVal ℚ)
  direction : List (OptionVal ℚ)
  speed : List (OptionVal ℚ)
  omega : List (OptionVal ℚ)
  height : List (OptionVal ℚ)
  cloud_fraction : List (OptionVal ℚ)
  mslp : OptionVal ℚ
  station_pres : OptionVal ℚ
  low_cloud : OptionVal ℚ
  mid_cloud : OptionVal ℚ
  hi_cloud : OptionVal ℚ
  uwind : OptionVal ℚ
  vwind : OptionVal ℚ
  deriving DecidableEq

/-- The `#[derive(Default)]` instance of `Sounding`: every cell is the sentinel, every
sequence empty, the valid time absent. -/
def Sounding.new : Sounding :=
  ⟨OptionVal.defaultMissing, none, OptionVal.defaultMissing,
    OptionVal.defaultMissing, OptionVal.defaultMissing, OptionVal.defaultMissing,
    OptionVal.defaultMissing, OptionVal.defaultMissing, OptionVal.defaultMissing,
    OptionVal.defaultMissing, OptionVal.defaultMissing, OptionVal.defaultMissing,
    OptionVal.defaultMissing, OptionVal.defaultMissing, OptionVal.defaultMissing,
    OptionVal.defaultMissing, OptionVal.defaultMissing, OptionVal.defaultMissing,
    OptionVal.defaultMissing, OptionVal.defaultMissing,
    [], [], [], [], [], [], [], [], [], [],
    OptionVal.defaultMissing, OptionVal.defaultMissing, OptionVal.defaultMissing,
    OptionVal.defaultMissing, OptionVal.defaultMissing, OptionVal.defaultMissing,
    OptionVal.defaultMissing⟩

/-- Rendering of a `ℚ` inside a diagnostic message.  It stands in for Rust's
`Display` of `f32`; no claim depends on the digits of an embedded number. -/
def fmtQ (q : ℚ) : String := toString q.num ++ "/" ++ toString q.den

/-- Every message pushed by `validate` starts with `'\n'` (each `format!`
literal in the source begins with `\n`). -/
def mkMsg (rest : String) : String := "\n" ++ rest

/-- The `validate_vector_len!` macro: a non-empty profile whose length differs from the
pressure array's length produces one message. -/
def lenMsg (l : List (OptionVal ℚ)) (len : Nat) (name : String) : List String :=
  if l ≠ [] ∧ l.length ≠ len then
    [mkMsg (name ++ " array has different length than pressure array.")]
  else []

/-- The pressure monotonicity loop.  The running `pressure_one_level_down`
starts at `f32::MAX` (modelled as `none`: no real pressure value compares
greater than it), or at the station pressure when that is present. -/
def pressureMsgs : Option ℚ → List (OptionVal ℚ) → List String
  | _, [] => []
  | prev, p :: rest =>
    match p.as_option with
    | none => pressureMsgs prev rest
    | some pv =>
      (match prev with
        | none => []
        | some pl =>
          if pl < pv then
            [mkMsg ("Pressure increasing with height: " ++ fmtQ pl ++ " < " ++ fmtQ pv)]
          else []) ++ pressureMsgs (some pv) rest

/-- The height monotonicity loop.  `height_one_level_down` starts at
`f32::MIN` (modelled as `none`: it compares greater than no real value). -/
def heightMsgs : Option ℚ → List (OptionVal ℚ) → List String
  | _, [] => []
  | prev, h :: rest =>
    match h.as_option with
    | none => heightMsgs prev rest
    | some hv =>
      (match prev with
        | none => []
        | some hl =>
          if hv < hl then
            [mkMsg ("Height values decreasing with height: " ++ fmtQ hl ++ " < " ++ fmtQ hv)]
          else []) ++ heightMsgs (some hv) rest

/-- The three zipped comparisons (`temperature`/`wet_bulb`,
`temperature`/`dew_point`, `wet_bulb`/`dew_point`): when both sides are
present and the left is less than the right, one message is pushed. -/
def zipMsgs (label : String) : List (OptionVal ℚ) → List (OptionVal ℚ) → List String
  | [], _ => []
  | _ :: _, [] => []
  | a :: as, b :: bs =>
    (match a.as_option, b.as_option with
      | some av, some bv =>
        if av < bv then [mkMsg (label ++ ": " ++ fmtQ av ++ " < " ++ fmtQ bv)] else []
      | _, _ => []) ++ zipMsgs label as bs

/-- The per-element non-negativity loops over `speed` and `cloud_fraction`. -/
def nonnegListMsgs (pre post : String) : List (OptionVal ℚ) → List String
  | [] => []
  | v :: rest =>
    (match v.as_option with
      | some vv => if vv < 0 then [mkMsg (pre ++ fmtQ vv ++ post)] else []
      | none => []) ++ nonnegListMsgs pre post rest

/-- The `validate_f32_positive!` macro: a present scalar below zero produces one
message. -/
def positiveMsg (v : OptionVal ℚ) (name : String) : List String :=
  match v.as_option with
  | some val => if val < 0 then [mkMsg (name ++ " < 0.0: " ++ fmtQ val)] else []
  | none => []

/-- The `CINS > 0.0` check. -/
def cinsMsg (v : OptionVal ℚ) : List String :=
  match v.as_option with
  | some val => if 0 < val then [mkMsg ("CINS > 0.0: " ++ fmtQ val)] else []
  | none => []

/-- The Haines index check: a present value outside `2..=6` produces one
message. -/
def hainMsg (v : OptionVal ℤ) : List String :=
  match v.as_option with
  | some val =>
    if 2 ≤ val ∧ val ≤ 6 then [] else [mkMsg ("Invalid Haines Index: " ++ toString val)]
  | none => []

/-- All messages `validate` pushes onto `error_msg`, in source order. -/
def validateMsgs (s : Sounding) : List String :=
  (if s.pressure = [] then [mkMsg "Pressure variable required, none given."] else [])
    ++ lenMsg s.temperature s.pressure.length "Temperature"
    ++ lenMsg s.wet_bulb s.pressure.length "Wet bulb temperature"
    ++ lenMsg s.dew_point s.pressure.length "Dew point"
    ++ lenMsg s.theta_e s.pressure.length "Theta-e"
    ++ lenMsg s.direction s.pressure.length "Wind direction"
    ++ lenMsg s.speed s.pressure.length "wind speed"
    ++ lenMsg s.omega s.pressure.length "Omega (pressure vertical velocity)"
    ++ lenMsg s.height s.pressure.length "Height"
    ++ lenMsg s.cloud_fraction s.pressure.length "Cloud fraction"
    ++ pressureMsgs s.station_pres.as_option s.pressure
    ++ heightMsgs none s.height
    ++ zipMsgs "Temperature < Wet bulb" s.temperature s.wet_bulb
    ++ zipMsgs "Temperature < Dew Point" s.temperature s.dew_point
    ++ zipMsgs "Wet bulb < Dew Point" s.wet_bulb s.dew_point
    ++ nonnegListMsgs "Wind speed < 0: " " < 0.0" s.speed
    ++ nonnegListMsgs "Cloud fraction < 0: " " < 0.0" s.cloud_fraction
    ++ positiveMsg s.cape "CAPE"
    ++ positiveMsg s.pwat "PWAT"
    ++ cinsMsg s.cins
    ++ hainMsg s.hain
    ++ positiveMsg s.low_cloud "low cloud"
    ++ positiveMsg s.mid_cloud "mid cloud"
    ++ positiveMsg s.hi_cloud "hi cloud"

/-- Embeds `Sounding::validate` from `lib.rs`: the messages are accumulated
into `error_msg` by `push_str` (modelled by `String.join` of the message list,
which is the same left fold of `++` over `""`); the function succeeds exactly
when the accumulated string is empty, and otherwise returns the report with a
final newline pushed. -/
def Sounding.validate (s : Sounding) : Except String Unit :=
  if String.join (validateMsgs s) = "" then Except.ok ()
  else Except.error (String.join (validateMsgs s) ++ "\n")

end V1

/-- The default sounding with the Haines index set to the out-of-range value
`1` (the valid range is `2..=6`), as in `create_invalid_test_sounding`. -/
def V1.hainesSounding : V1.Sounding :=
  { V1.Sounding.new with hain := OptionVal.of 1 }

/-! ## `sounding.rs` — the later evolution of the crate (`f64` values,
enum-indexed access, iteration, interpolation, nearest-point lookup). -/

/-- Embeds `enum Profile` from `sounding.rs`. -/
inductive Profile where
  | Pressure
  | Temperature
  | WetBulb
  | DewPoint
  | ThetaE
  | WindDirection
  | WindSpeed
  | PressureVerticalVelocity
  | GeopotentialHeight
  | CloudFraction
  deriving DecidableEq, Repr

/-- Embeds `enum Surface` from `sounding.rs` (this evolution has no 2 m
temperature, 2 m dew point, wind direction/speed or precipitation surface
variants; those appear only in the later `enums.rs`). -/
inductive Surface where
  | MSLP
  | StationPressure
  | LowCloud
  | MidCloud
  | HighCloud
  | UWind
  | VWind
  deriving DecidableEq, Repr

/-- Embeds `struct Sounding` from `sounding.rs` (`f64` fields modelled as
`ℚ`, `i32` as `ℤ`; the `chrono::NaiveDateTime` valid time is opaque to every
claim and is modelled as an `Option ℤ` timestamp).  The source field `show`
is a reserved word in Lean and is embedded as `showalter`. -/
structure Sounding where
  num : OptionVal ℤ
  valid_time : Option ℤ
  lead_time : OptionVal ℤ
  lat : OptionVal ℚ
  lon : OptionVal ℚ
  elevation : OptionVal ℚ
  showalter : OptionVal ℚ
  li : OptionVal ℚ
  swet : OptionVal ℚ
  kinx : OptionVal ℚ
  lclp : OptionVal ℚ
  pwat : OptionVal ℚ
  totl : OptionVal ℚ
  cape : OptionVal ℚ
  lclt : OptionVal ℚ
  cins : OptionVal ℚ
  eqlv : OptionVal ℚ
  lfc : OptionVal ℚ
  brch : OptionVal ℚ
  pressure : List (OptionVal ℚ)
  temperature : List (OptionVal ℚ)
  wet_bulb : List (OptionVal ℚ)
  dew_point : List (OptionVal ℚ)
  theta_e : List (OptionVal ℚ)
  direction : List (OptionVal ℚ)
  speed : List (OptionVal ℚ)
  omega : List (OptionVal ℚ)
  height : List (OptionVal ℚ)
  cloud_fraction : List (OptionVal ℚ)
  mslp : OptionVal ℚ
  station_pres : OptionVal ℚ
  low_cloud : OptionVal ℚ
  mid_cloud : OptionVal ℚ
  hi_cloud : OptionVal ℚ
  uwind : OptionVal ℚ
  vwind : OptionVal ℚ
  deriving DecidableEq

/-- Embeds `struct DataRow` from `sounding.rs` (the view of one row). -/
structure DataRow where
  pressure : OptionVal ℚ
  temperature : OptionVal ℚ
  wet_bulb : OptionVal ℚ
  dew_point : OptionVal ℚ
  theta_e : OptionVal ℚ
  direction : OptionVal ℚ
  speed : OptionVal ℚ
  omega : OptionVal ℚ
  height : OptionVal ℚ
  cloud_fraction : OptionVal ℚ
  deriving DecidableEq, Repr

/-- Embeds `DataRow::default()`: every cell missing. -/
def DataRow.defaultRow : DataRow :=
  ⟨OptionVal.defaultMissing, OptionVal.defaultMissing, OptionVal.defaultMissing,
    OptionVal.defaultMissing, OptionVal.defaultMissing, OptionVal.defaultMissing,
    OptionVal.defaultMissing, OptionVal.defaultMissing, OptionVal.defaultMissing,
    OptionVal.defaultMissing⟩

/-- Embeds `Sounding::new()` / `Sounding::default()`: all cells missing, all profile
sequences empty. -/
def Sounding.new : Sounding :=
  ⟨OptionVal.defaultMissing, none, OptionVal.defaultMissing,
    OptionVal.defaultMissing, OptionVal.defaultMissing, OptionVal.defaultMissing,
    OptionVal.defaultMissing, OptionVal.defaultMissing, OptionVal.defaultMissing,
    OptionVal.defaultMissing, OptionVal.defaultMissing, OptionVal.defaultMissing,
    OptionVal.defaultMissing, OptionVal.defaultMissing, OptionVal.defaultMissing,
    OptionVal.defaultMissing, OptionVal.defaultMissing, OptionVal.defaultMissing,
    OptionVal.defaultMissing,
    [], [], [], [], [], [], [], [], [], [],
    OptionVal.defaultMissing, OptionVal.defaultMissing, OptionVal.defaultMissing,
    OptionVal.defaultMissing, OptionVal.defaultMissing, OptionVal.defaultMissing,
    OptionVal.defaultMissing⟩

/-- Embeds `Sounding::set_profile`: replaces the named sequence. -/
def Sounding.set_profile (s : Sounding) (var : Profile)
    (values : List (OptionVal ℚ)) : Sounding :=
  match var with
  | Profile.Pressure => { s with pressure := values }
  | Profile.Temperature => { s with temperature := values }
  | Profile.WetBulb => { s with wet_bulb := values }
  | Profile.DewPoint => { s with dew_point := values }
  | Profile.ThetaE => { s with theta_e := values }
  | Profile.WindDirection => { s with direction := values }
  | Profile.WindSpeed => { s with speed := values }
  | Profile.PressureVerticalVelocity => { s with omega := values }
  | Profile.GeopotentialHeight => { s with height := values }
  | Profile.CloudFraction => { s with cloud_fraction := values }

/-- Embeds `Sounding::get_profile`. -/
def Sounding.get_profile (s : Sounding) (var : Profile) : List (OptionVal ℚ) :=
  match var with
  | Profile.Pressure => s.pressure
  | Profile.Temperature => s.temperature
  | Profile.WetBulb => s.wet_bulb
  | Profile.DewPoint => s.dew_point
  | Profile.ThetaE => s.theta_e
  | Profile.WindDirection => s.direction
  | Profile.WindSpeed => s.speed
  | Profile.PressureVerticalVelocity => s.omega
  | Profile.GeopotentialHeight => s.height
  | Profile.CloudFraction => s.cloud_fraction

/-- Embeds `Sounding::set_surface_value`.  The source takes any `T` with
`OptionVal<f64>: From<T>` and stores `OptionVal::from(value)`; the model takes
the already-converted `OptionVal`. -/
def Sounding.set_surface_value (s : Sounding) (var : Surface)
    (value : OptionVal ℚ) : Sounding :=
  match var with
  | Surface.MSLP => { s with mslp := value }
  | Surface.StationPressure => { s with station_pres := value }
  | Surface.LowCloud => { s with low_cloud := value }
  | Surface.MidCloud => { s with mid_cloud := value }
  | Surface.HighCloud => { s with hi_cloud := value }
  | Surface.UWind => { s with uwind := value }
  | Surface.VWind => { s with vwind := value }

/-- Embeds `Sounding::get_surface_value`. -/
def Sounding.get_surface_value (s : Sounding) (var : Surface) : OptionVal ℚ :=
  match var with
  | Surface.MSLP => s.mslp
  | Surface.StationPressure => s.station_pres
  | Surface.LowCloud => s.low_cloud
  | Surface.MidCloud => s.mid_cloud
  | Surface.HighCloud => s.hi_cloud
  | Surface.UWind => s.uwind
  | Surface.VWind => s.vwind

/-- The row built by `Sounding::get_data_row` for an index inside the
pressure sequence: `copy_to_result!` copies the `idx`-th cell of each profile
when that profile is long enough and otherwise leaves the field missing
(`DataRow::default()`), which is exactly `List.getD`. -/
def Sounding.mkRow (s : Sounding) (idx : Nat) : DataRow :=
  ⟨s.pressure.getD idx OptionVal.defaultMissing,
    s.temperature.getD idx OptionVal.defaultMissing,
    s.wet_bulb.getD idx OptionVal.defaultMissing,
    s.dew_point.getD idx OptionVal.defaultMissing,
    s.theta_e.getD idx OptionVal.defaultMissing,
    s.direction.getD idx OptionVal.defaultMissing,
    s.speed.getD idx OptionVal.defaultMissing,
    s.omega.getD idx OptionVal.defaultMissing,
    s.height.getD idx OptionVal.defaultMissing,
    s.cloud_fraction.getD idx OptionVal.defaultMissing⟩

/-- Embeds `Sounding::get_data_row`: `None` when `idx` is outside the
pressure sequence. -/
def Sounding.get_data_row (s : Sounding) (idx : Nat) : Option DataRow :=
  if s.pressure.length ≤ idx then none else some (s.mkRow idx)

/-- The rows produced by a `ProfileIterator` with `direction = 1` starting at
index `i`: `next` returns `get_data_row(next)` and advances by one; a caller
collecting the iterator stops at the first `None`. -/
def Sounding.rowsUpFrom (s : Sounding) (i : Nat) : List DataRow :=
  match h : s.get_data_row i with
  | some r => r :: s.rowsUpFrom (i + 1)
  | none => []
termination_by s.pressure.length - i
decreasing_by
  unfold Sounding.get_data_row at h
  split at h
  · exact absurd h (by simp)
  · rename_i hle
    have := Nat.lt_of_not_le hle
    omega

/-- Embeds `Sounding::bottom_up()`: iteration from index 0 upward. -/
def Sounding.bottom_up (s : Sounding) : List DataRow := s.rowsUpFrom 0

/-- The rows produced by a `ProfileIterator` with `direction = -1` starting
at signed index `i`.  A negative `next` index, cast `as usize` in the source,
is far out of range, so `get_data_row` returns `None` and iteration stops. -/
def Sounding.rowsDownFrom (s : Sounding) (i : Int) : List DataRow :=
  if i < 0 then []
  else
    match s.get_data_row i.toNat with
    | some r => r :: s.rowsDownFrom (i - 1)
    | none => []
termination_by (i + 1).toNat
decreasing_by
  rename_i hneg
  omega

/-- Embeds `Sounding::top_down()`: iteration from `pressure.len() - 1` downward.
For the empty sounding the source's `usize` subtraction wraps (release
profile) to `-1 as isize`, so iteration stops immediately; the model starts
at `(len : ℤ) - 1 = -1` with the same effect. -/
def Sounding.top_down (s : Sounding) : List DataRow :=
  s.rowsDownFrom ((s.pressure.length : Int) - 1)

/-- C1 counterexample input: a sounding with a non-empty pressure profile
whose station pressure is then set to `950`. -/
def c1Sounding : Sounding :=
  (Sounding.new.set_profile Profile.Pressure [OptionVal.of 1000]).set_surface_value
    Surface.StationPressure (OptionVal.of 950)

/-- C2 counterexample input: a sounding with a present station pressure whose
pressure profile is then set to `[900]`. -/
def c2Sounding : Sounding :=
  (Sounding.new.set_surface_value Surface.StationPressure
    (OptionVal.of 1000)).set_profile Profile.Pressure [OptionVal.of 900]

/-- The bracket-finding loop of `Sounding::linear_interpolate` (state:
enumeration index `i`, current `below_idx`; `above_idx` starts at 0 and is
only assigned at the breaking iteration).  A present pressure strictly above
the target updates `below_idx`; a present pressure strictly below the target
sets `above_idx` and breaks.  A pressure equal to the target triggers
neither branch. -/
def bracketGo (target : ℚ) : List (OptionVal ℚ) → Nat → Nat → Nat × Nat
  | [], _, below => (below, 0)
  | p :: rest, i, below =>
    match p.as_option with
    | none => bracketGo target rest (i + 1) below
    | some pv =>
      let b := if target < pv then i else below
      if pv < target then (b, i) else bracketGo target rest (i + 1) b

/-- The `linear_interp!` macro body: when the profile is long enough and both
bracketing values are present, the field is `val_below + dp * rise / run`
(the hand-inlined temperature case in the source computes the same
expression); otherwise the field stays missing. -/
def linInterpField (arr : List (OptionVal ℚ)) (blw abv : Nat) (dp run : ℚ) :
    OptionVal ℚ :=
  if abv < arr.length then
    match (arr.getD blw OptionVal.defaultMissing).as_option,
        (arr.getD abv OptionVal.defaultMissing).as_option with
    | some vb, some va => OptionVal.of (vb + dp * (va - vb) / run)
    | _, _ => OptionVal.defaultMissing
  else OptionVal.defaultMissing

/-- Embeds `Sounding::linear_interpolate` for the rational-valued fields.
Indexing `pressure[below_idx]`/`pressure[above_idx]` in the guarded branch is
always in range in the source; the model uses `getD` with the missing cell as
the (unreachable) out-of-range default.  The wind-direction field uses
transcendental arithmetic and is modelled separately over `ℝ` by
`Sounding.linear_interpolate_direction`; here it stays missing. -/
def Sounding.linear_interpolate (s : Sounding) (target_p : ℚ) : DataRow :=
  let bk := bracketGo target_p s.pressure 0 0
  let below_idx := bk.1
  let above_idx := bk.2
  if above_idx ≠ 0 then
    let p_below := (s.pressure.getD below_idx OptionVal.defaultMissing).unwrap
    let p_above := (s.pressure.getD above_idx OptionVal.defaultMissing).unwrap
    let run := p_above - p_below
    let dp := target_p - p_below
    { DataRow.defaultRow with
        pressure := OptionVal.of target_p
        temperature := linInterpField s.temperature below_idx above_idx dp run
        wet_bulb := linInterpField s.wet_bulb below_idx above_idx dp run
        dew_point := linInterpField s.dew_point below_idx above_idx dp run
        theta_e := linInterpField s.theta_e below_idx above_idx dp run
        speed := linInterpField s.speed below_idx above_idx dp run
        omega := linInterpField s.omega below_idx above_idx dp run
        height := linInterpField s.height below_idx above_idx dp run
        cloud_fraction := linInterpField s.cloud_fraction below_idx above_idx dp run }
  else { DataRow.defaultRow with pressure := OptionVal.of target_p }

/-- C3 counterexample input: pressures `[1000, 900, 800]` with temperatures
`[0, 100, 10]`; the target `900` equals the stored middle level. -/
def c3Sounding : Sounding :=
  (Sounding.new.set_profile Profile.Pressure
    [OptionVal.of 1000, OptionVal.of 900, OptionVal.of 800]).set_profile
    Profile.Temperature [OptionVal.of 0, OptionVal.of 100, OptionVal.of 10]

/-- The scanning loop of `Sounding::fetch_nearest_pnt` (state: enumeration
index `i`, best index `idx`, best distance `best`).  `best_abs_diff` starts
at `f64::MAX`, modelled as `none`: every finite distance compares less than
it and none compares greater.  In the source the `abs_diff > best_abs_diff`
test runs after a possible update of `best_abs_diff`, in which case it
compares `abs_diff` with itself and never breaks, exactly as here. -/
def nearLoop (t : ℚ) : List (OptionVal ℚ) → Nat → Nat → Option ℚ → Nat
  | [], _, idx, _ => idx
  | p :: rest, i, idx, best =>
    match p.as_option, best with
    | none, _ => nearLoop t rest (i + 1) idx best
    | some pv, none => nearLoop t rest (i + 1) i (some |t - pv|)
    | some pv, some b =>
      if |t - pv| < b then nearLoop t rest (i + 1) i (some |t - pv|)
      else if b < |t - pv| then idx
      else nearLoop t rest (i + 1) idx best

/-- Embeds `Sounding::fetch_nearest_pnt`.  The source ends with
`self.get_data_row(idx).unwrap()`; the model keeps the `Option`, so `none`
models the panic of the `unwrap`. -/
def Sounding.fetch_nearest_pnt (s : Sounding) (t : ℚ) : Option DataRow :=
  s.get_data_row (nearLoop t s.pressure 0 0 none)

/-- Spec-side view of the pressure sequence: the list of `(index, value)`
pairs of the present entries, in stored order. -/
def presentPairs : List (OptionVal ℚ) → Nat → List (Nat × ℚ)
  | [], _ => []
  | p :: rest, i =>
    match p.as_option with
    | some v => (i, v) :: presentPairs rest (i + 1)
    | none => presentPairs rest (i + 1)

/-- Spec-side reference scan, following the claim's words: track the level
with minimum distance over the whole stored sequence (first minimum wins),
with no early exit. -/
def nearFullLoop (t : ℚ) : List (OptionVal ℚ) → Nat → Nat → Option ℚ → Nat
  | [], _, idx, _ => idx
  | p :: rest, i, idx, best =>
    match p.as_option, best with
    | none, _ => nearFullLoop t rest (i + 1) idx best
    | some pv, none => nearFullLoop t rest (i + 1) i (some |t - pv|)
    | some pv, some b =>
      if |t - pv| < b then nearFullLoop t rest (i + 1) i (some |t - pv|)
      else nearFullLoop t rest (i + 1) idx (some b)

/-- Distance-`d`-improves-on-the-running-best predicate: every distance improves on
the initial `f64::MAX` (`none`). -/
def ltB (d : ℚ) : Option ℚ → Prop
  | none => True
  | some b => d < b

/-- C6 counterexample input: one stored pressure level `1000` and a station
(surface) pressure `900`, with target `900`. -/
def c6Sounding : Sounding :=
  (Sounding.new.set_profile Profile.Pressure [OptionVal.of 1000]).set_surface_value
    Surface.StationPressure (OptionVal.of 900)

/-- Witness input for C6 amended: present pressures `[900, 800, 700, 500]`. -/
def c6wSounding : Sounding :=
  Sounding.new.set_profile Profile.Pressure
    [OptionVal.of 900, OptionVal.of 800, OptionVal.of 700, OptionVal.of 500]

/-- Rust `a.atan2(b)`: the four-quadrant arctangent of `a` (the `y`
component) and `b` (the `x` component), modelled as the argument of the
complex number `b + a*i`.  `Complex.arg` agrees with `atan2` everywhere,
including `atan2 0 0 = 0`, and has range `(-π, π]`. -/
noncomputable def atan2 (a b : ℝ) : ℝ := Complex.arg ⟨b, a⟩

/-- Rust `f64::to_radians`: `self * (π / 180)`. -/
noncomputable def toRadians (d : ℝ) : ℝ := d * (Real.pi / 180)

/-- Rust `f64::to_degrees`: `self * (180 / π)`. -/
noncomputable def toDegrees (r : ℝ) : ℝ := r * (180 / Real.pi)

/-- The loop `while dir < 0.0 { dir += 360.0; }`: it adds `360` exactly
`max 0 ⌈-dir/360⌉` times (the least number of additions making the value
non-negative). -/
noncomputable def normUp (d : ℝ) : ℝ := d + 360 * ((max 0 ⌈-d / 360⌉ : ℤ) : ℝ)

/-- The loop `while dir > 360.0 { dir -= 360.0; }`: it subtracts `360`
exactly `max 0 ⌈(dir - 360)/360⌉` times (the least number of subtractions
making the value at most `360`). -/
noncomputable def normDown (d : ℝ) : ℝ :=
  d - 360 * ((max 0 ⌈(d - 360) / 360⌉ : ℤ) : ℝ)

/-- The wind-direction block of `Sounding::linear_interpolate`: decompose the
bracketing directions into sine/cosine components, interpolate each component
linearly (`x_below + dp * rise_x / run`), recombine with `atan2`, convert to
degrees, and normalize with the two `while` loops. -/
noncomputable def interp_direction (dir_below dir_above dp run : ℝ) : ℝ :=
  normDown (normUp (toDegrees (atan2
    (Real.sin (toRadians dir_below) +
      dp * (Real.sin (toRadians dir_above) - Real.sin (toRadians dir_below)) / run)
    (Real.cos (toRadians dir_below) +
      dp * (Real.cos (toRadians dir_above) - Real.cos (toRadians dir_below)) / run))))

/-- The wind-direction output of `Sounding::linear_interpolate`: the same
bracket scan and presence guards as the rational embedding (`dp` and `run`
are `target_p - p_below` and `p_above - p_below` as there), feeding
`interp_direction` over `ℝ`; `none` when the field stays missing. -/
noncomputable def Sounding.linear_interpolate_direction (s : Sounding)
    (target_p : ℚ) : Option ℝ :=
  if (bracketGo target_p s.pressure 0 0).2 ≠ 0 then
    if (bracketGo target_p s.pressure 0 0).2 < s.direction.length then
      match (s.direction.getD (bracketGo target_p s.pressure 0 0).1
            OptionVal.defaultMissing).as_option,
          (s.direction.getD (bracketGo target_p s.pressure 0 0).2
            OptionVal.defaultMissing).as_option with
      | some db, some da =>
        some (interp_direction (db : ℝ) (da : ℝ)
          (((target_p -
            (s.pressure.getD (bracketGo target_p s.pressure 0 0).1
              OptionVal.defaultMissing).unwrap : ℚ)) : ℝ)
          ((((s.pressure.getD (bracketGo target_p s.pressure 0 0).2
              OptionVal.defaultMissing).unwrap -
            (s.pressure.getD (bracketGo target_p s.pressure 0 0).1
              OptionVal.defaultMissing).unwrap : ℚ)) : ℝ))
      | _, _ => none
    else none
  else none

/-- C4 witness input: pressures `[1000, 900]` with wind directions
`[350, 10]`; the target `950` is the midpoint. -/
def c4Sounding : Sounding :=
  (Sounding.new.set_profile Profile.Pressure
    [OptionVal.of 1000, OptionVal.of 900]).set_profile Profile.WindDirection
    [OptionVal.of 350, OptionVal.of 10]

/-! ## Theorems -/

/-- C7 -- For every numeric type with a missing sentinel and every
non-sentinel value `x`, converting `Some(x)` into an `OptionVal` and back
yields `Some(x)`, converting `None` into an `OptionVal` and back yields
`None`, and `as_option()` returns `None` iff the stored value equals the
type's sentinel `MISSING`. -/
theorem optionVal_roundtrip (α : Type) [DecidableEq α] [MissingData α]
    (x : α) (hx : x ≠ MissingData.MISSING) :
    (OptionVal.ofOption (some x)).as_option = some x ∧
      (OptionVal.ofOption (none : Option α)).as_option = none ∧
      ∀ v : OptionVal α, v.as_option = none ↔ v.value = MissingData.MISSING := by
  refine ⟨?_, ?_, ?_⟩
  · simp [OptionVal.ofOption, OptionVal.of, OptionVal.as_option, hx]
  · simp [OptionVal.ofOption, OptionVal.of, OptionVal.as_option]
  · intro v
    unfold OptionVal.as_option
    split <;> simp_all

/-- Witness for C7: instantiated at the `f64`-model type `ℚ` with `x = 5`. -/
theorem optionVal_roundtrip_witness :
    (5 : ℚ) ≠ MissingData.MISSING ∧
      ((OptionVal.ofOption (some (5 : ℚ))).as_option = some 5 ∧
        (OptionVal.ofOption (none : Option ℚ)).as_option = none ∧
        ∀ v : OptionVal ℚ, v.as_option = none ↔ v.value = MissingData.MISSING) :=
  ⟨by decide, optionVal_roundtrip ℚ 5 (by decide)⟩

namespace V1

/-- Every pushed message is non-empty: it starts with a newline. -/
theorem mkMsg_ne_empty (r : String) : mkMsg r ≠ "" := by
  intro h
  have h2 := congrArg String.data h
  rw [mkMsg, String.data_append] at h2
  exact absurd h2 (by simp [String.data])

theorem lenMsg_ne_empty {m : String} {l : List (OptionVal ℚ)} {len : Nat}
    {name : String} (hm : m ∈ lenMsg l len name) : m ≠ "" := by
  unfold lenMsg at hm
  split at hm
  · rw [List.mem_singleton] at hm
    exact hm ▸ mkMsg_ne_empty _
  · exact absurd hm (List.not_mem_nil m)

theorem pressureMsgs_ne_empty {m : String} :
    ∀ (prev : Option ℚ) (l : List (OptionVal ℚ)), m ∈ pressureMsgs prev l → m ≠ "" := by
  intro prev l
  induction l generalizing prev with
  | nil => simp [pressureMsgs]
  | cons p rest ih =>
    intro hm
    rw [pressureMsgs] at hm
    rcases hp : p.as_option with _ | pv <;> simp only [hp] at hm
    · exact ih prev hm
    · rcases List.mem_append.1 hm with h | h
      · rcases prev with _ | pl <;> simp only at h
        · exact absurd h (List.not_mem_nil m)
        · split at h
          · rw [List.mem_singleton] at h
            exact h ▸ mkMsg_ne_empty _
          · exact absurd h (List.not_mem_nil m)
      · exact ih (some pv) h

theorem heightMsgs_ne_empty {m : String} :
    ∀ (prev : Option ℚ) (l : List (OptionVal ℚ)), m ∈ heightMsgs prev l → m ≠ "" := by
  intro prev l
  induction l generalizing prev with
  | nil => simp [heightMsgs]
  | cons p rest ih =>
    intro hm
    rw [heightMsgs] at hm
    rcases hp : p.as_option with _ | hv <;> simp only [hp] at hm
    · exact ih prev hm
    · rcases List.mem_append.1 hm with h | h
      · rcases prev with _ | hl <;> simp only at h
        · exact absurd h (List.not_mem_nil m)
        · split at h
          · rw [List.mem_singleton] at h
            exact h ▸ mkMsg_ne_empty _
          · exact absurd h (List.not_mem_nil m)
      · exact ih (some hv) h

theorem zipMsgs_ne_empty {m : String} {label : String} :
    ∀ (xs ys : List (OptionVal ℚ)), m ∈ zipMsgs label xs ys → m ≠ "" := by
  intro xs
  induction xs with
  | nil => intro ys hm; rw [zipMsgs] at hm; exact absurd hm (List.not_mem_nil m)
  | cons a as ih =>
    intro ys hm
    cases ys with
    | nil => rw [zipMsgs] at hm; exact absurd hm (List.not_mem_nil m)
    | cons b bs =>
      rw [zipMsgs] at hm
      rcases List.mem_append.1 hm with h | h
      · rcases ha : a.as_option with _ | av <;> rcases hb : b.as_option with _ | bv <;>
          simp only [ha, hb] at h
        all_goals first
          | exact absurd h (List.not_mem_nil m)
          | (split at h
             · rw [List.mem_singleton] at h
               exact h ▸ mkMsg_ne_empty _
             · exact absurd h (List.not_mem_nil m))
      · exact ih bs h

theorem nonnegListMsgs_ne_empty {m pre post : String} :
    ∀ l : List (OptionVal ℚ), m ∈ nonnegListMsgs pre post l → m ≠ "" := by
  intro l
  induction l with
  | nil => simp [nonnegListMsgs]
  | cons v rest ih =>
    intro hm
    rw [nonnegListMsgs] at hm
    rcases List.mem_append.1 hm with h | h
    · rcases hv : v.as_option with _ | vv <;> simp only [hv] at h
      · exact absurd h (List.not_mem_nil m)
      · split at h
        · rw [List.mem_singleton] at h
          exact h ▸ mkMsg_ne_empty _
        · exact absurd h (List.not_mem_nil m)
    · exact ih h

theorem positiveMsg_ne_empty {m : String} {v : OptionVal ℚ} {name : String}
    (hm : m ∈ positiveMsg v name) : m ≠ "" := by
  unfold positiveMsg at hm
  rcases hv : v.as_option with _ | vv <;> simp only [hv] at hm
  · exact absurd hm (List.not_mem_nil m)
  · split at hm
    · rw [List.mem_singleton] at hm
      exact hm ▸ mkMsg_ne_empty _
    · exact absurd hm (List.not_mem_nil m)

theorem cinsMsg_ne_empty {m : String} {v : OptionVal ℚ} (hm : m ∈ cinsMsg v) :
    m ≠ "" := by
  unfold cinsMsg at hm
  rcases hv : v.as_option with _ | vv <;> simp only [hv] at hm
  · exact absurd hm (List.not_mem_nil m)
  · split at hm
    · rw [List.mem_singleton] at hm
      exact hm ▸ mkMsg_ne_empty _
    · exact absurd hm (List.not_mem_nil m)

theorem hainMsg_ne_empty {m : String} {v : OptionVal ℤ} (hm : m ∈ hainMsg v) :
    m ≠ "" := by
  unfold hainMsg at hm
  rcases hv : v.as_option with _ | vv <;> simp only [hv] at hm
  · exact absurd hm (List.not_mem_nil m)
  · split at hm
    · exact absurd hm (List.not_mem_nil m)
    · rw [List.mem_singleton] at hm
      exact hm ▸ mkMsg_ne_empty _

/-- No message accumulated by `validate` is the empty string. -/
theorem validateMsgs_ne_empty {s : Sounding} {m : String}
    (hm : m ∈ validateMsgs s) : m ≠ "" := by
  unfold validateMsgs at hm
  simp only [List.append_assoc, List.mem_append] at hm
  rcases hm with h | h | h | h | h | h | h | h | h | h | h | h | h | h | h | h | h |
    h | h | h | h | h | h | h
  · split at h
    · rw [List.mem_singleton] at h
      exact h ▸ mkMsg_ne_empty _
    · exact absurd h (List.not_mem_nil m)
  · exact lenMsg_ne_empty h
  · exact lenMsg_ne_empty h
  · exact lenMsg_ne_empty h
  · exact lenMsg_ne_empty h
  · exact lenMsg_ne_empty h
  · exact lenMsg_ne_empty h
  · exact lenMsg_ne_empty h
  · exact lenMsg_ne_empty h
  · exact lenMsg_ne_empty h
  · exact pressureMsgs_ne_empty _ _ h
  · exact heightMsgs_ne_empty _ _ h
  · exact zipMsgs_ne_empty _ _ h
  · exact zipMsgs_ne_empty _ _ h
  · exact zipMsgs_ne_empty _ _ h
  · exact nonnegListMsgs_ne_empty _ h
  · exact nonnegListMsgs_ne_empty _ h
  · exact positiveMsg_ne_empty h
  · exact positiveMsg_ne_empty h
  · exact cinsMsg_ne_empty h
  · exact hainMsg_ne_empty h
  · exact positiveMsg_ne_empty h
  · exact positiveMsg_ne_empty h
  · exact positiveMsg_ne_empty h

/-- For a list of non-empty strings, the joined accumulator is empty exactly
when nothing was pushed: `error_msg == ""` is the same test as "no violation
message was produced". -/
theorem join_eq_empty_iff {l : List String} (h : ∀ m ∈ l, m ≠ "") :
    String.join l = "" ↔ l = [] := by
  constructor
  · intro hj
    cases l with
    | nil => rfl
    | cons m rest =>
      exfalso
      rw [String.join_eq] at hj
      have hd : ((m :: rest).map String.data).flatten = [] := congrArg String.data hj
      rw [List.flatten_eq_nil_iff] at hd
      have hm : m.data = [] := hd m.data (by simp)
      exact h m (by simp) (String.ext hm)
  · intro h2
    subst h2
    rfl

end V1

/-- C5 -- `validate` accumulates all violation messages without failing fast
and returns success iff zero violations were found; on a sounding whose Haines
index is `1` it returns a failure whose report mentions the Haines index (here
the report holds both the empty-pressure violation and the Haines violation,
in source order). -/
theorem validate_ok_iff_no_violation :
    (∀ s : V1.Sounding, s.validate = Except.ok () ↔ V1.validateMsgs s = []) ∧
      V1.hainesSounding.validate =
        Except.error "\nPressure variable required, none given.\nInvalid Haines Index: 1\n" ∧
      ∃ pre post : String,
        ("\nPressure variable required, none given.\nInvalid Haines Index: 1\n" : String) =
          pre ++ "Haines" ++ post := by
  have hmsgs : V1.validateMsgs V1.hainesSounding =
      ["\nPressure variable required, none given.", "\nInvalid Haines Index: 1"] := by
    decide
  refine ⟨?_, ?_, ?_⟩
  · intro s
    unfold V1.Sounding.validate
    split
    · rename_i h
      constructor
      · intro _
        exact (V1.join_eq_empty_iff (fun m hm => V1.validateMsgs_ne_empty hm)).1 h
      · intro _
        rfl
    · rename_i h
      constructor
      · intro hcontra
        exact absurd hcontra (by simp)
      · intro hmsgs2
        have hj : String.join (V1.validateMsgs s) = "" := by rw [hmsgs2]; rfl
        exact absurd hj h
  · unfold V1.Sounding.validate
    rw [hmsgs]
    rw [if_neg (by decide :
      ¬String.join ["\nPressure variable required, none given.",
        "\nInvalid Haines Index: 1"] = "")]
    congr 1
  · exact ⟨"\nPressure variable required, none given.\nInvalid ",
      " Index: 1\n", by decide⟩

/-- Witness for C5: the left conjunct applied to the default sounding. -/
theorem validate_ok_iff_no_violation_witness :
    V1.Sounding.new.validate = Except.ok () ↔ V1.validateMsgs V1.Sounding.new = [] :=
  validate_ok_iff_no_violation.1 V1.Sounding.new

/-- C10 -- `validate` on the default (empty) sounding returns an error whose
report is exactly the empty-pressure-profile violation, even though all
sequences empty is the initial state of a newly created sounding. -/
theorem validate_default_is_error :
    V1.Sounding.new.validate =
      Except.error "\nPressure variable required, none given.\n" := by
  have hmsgs : V1.validateMsgs V1.Sounding.new =
      ["\nPressure variable required, none given."] := by decide
  unfold V1.Sounding.validate
  rw [hmsgs]
  rw [if_neg (by decide :
    ¬String.join ["\nPressure variable required, none given."] = "")]
  congr 1

theorem get_data_row_lt {s : Sounding} {i : Nat} {r : DataRow}
    (h : s.get_data_row i = some r) : i < s.pressure.length := by
  unfold Sounding.get_data_row at h
  split at h
  · exact absurd h (by simp)
  · rename_i hle
    exact Nat.lt_of_not_le hle

/-- C1 counterexample -- setting the station pressure on a sounding whose
(non-empty) correlated pressure profile holds `1000` leaves index 0 of that
profile at `1000`, not at the new surface value `950`: `set_surface_value`
never patches a profile and never recomputes wet-bulb/theta-e entries. -/
theorem set_surface_value_leaves_profile_cex :
    c1Sounding.get_profile Profile.Pressure = [OptionVal.of 1000] ∧
      c1Sounding.get_surface_value Surface.StationPressure = OptionVal.of 950 ∧
      OptionVal.of (1000 : ℚ) ≠ OptionVal.of 950 := by
  refine ⟨rfl, rfl, by decide⟩

/-- C1 amended -- `set_surface_value` updates exactly the named surface
scalar (readable back through `get_surface_value`) and leaves every profile
sequence untouched; in particular no index-0 patch and no derived
wet-bulb/theta-e recomputation happens. -/
theorem set_surface_value_only_scalar (s : Sounding) (var : Surface)
    (v : OptionVal ℚ) :
    (s.set_surface_value var v).get_surface_value var = v ∧
      ∀ pvar : Profile,
        (s.set_surface_value var v).get_profile pvar = s.get_profile pvar := by
  constructor
  · cases var <;> rfl
  · intro pvar
    cases var <;> cases pvar <;> rfl

/-- C2 counterexample -- with a present surface value (`1000`) for the same
physical quantity and a non-empty supplied sequence, `set_profile` stores the
sequence exactly as supplied: the surface value is not prepended and index 0
holds `900`, not the surface value. -/
theorem set_profile_no_prepend_cex :
    (c2Sounding.get_surface_value Surface.StationPressure).as_option = some 1000 ∧
      c2Sounding.get_profile Profile.Pressure = [OptionVal.of 900] ∧
      [OptionVal.of (900 : ℚ)] ≠ [OptionVal.of (1000 : ℚ), OptionVal.of 900] := by
  refine ⟨by decide, rfl, by decide⟩

/-- C2 amended -- `set_profile` replaces the named sequence with exactly the
supplied values (no surface value is prepended and no length validation is
performed at set time). -/
theorem set_profile_replaces (s : Sounding) (var : Profile)
    (values : List (OptionVal ℚ)) :
    (s.set_profile var values).get_profile var = values := by
  cases var <;> rfl

theorem rowsUpFrom_of_some {s : Sounding} {i : Nat} {r : DataRow}
    (h : s.get_data_row i = some r) :
    s.rowsUpFrom i = r :: s.rowsUpFrom (i + 1) := by
  rw [Sounding.rowsUpFrom]
  split <;> rename_i h2
  · rw [h] at h2
    cases h2
    rfl
  · rw [h] at h2
    cases h2

theorem rowsUpFrom_of_none {s : Sounding} {i : Nat}
    (h : s.get_data_row i = none) : s.rowsUpFrom i = [] := by
  rw [Sounding.rowsUpFrom]
  split <;> rename_i h2
  · rw [h] at h2
    cases h2
  · rfl

theorem rowsDownFrom_of_neg {s : Sounding} {i : Int} (h : i < 0) :
    s.rowsDownFrom i = [] := by
  rw [Sounding.rowsDownFrom]
  rw [if_pos h]

theorem rowsDownFrom_of_some {s : Sounding} {i : Int} {r : DataRow}
    (h0 : ¬i < 0) (h : s.get_data_row i.toNat = some r) :
    s.rowsDownFrom i = r :: s.rowsDownFrom (i - 1) := by
  rw [Sounding.rowsDownFrom]
  rw [if_neg h0]
  split <;> rename_i h2
  · rw [h] at h2
    cases h2
    rfl
  · rw [h] at h2
    cases h2

theorem rowsUpFrom_spec (s : Sounding) :
    ∀ (n i : Nat), s.pressure.length - i = n →
      s.rowsUpFrom i = (List.range' i n).map s.mkRow := by
  intro n
  induction n with
  | zero =>
    intro i hi
    have hle : s.pressure.length ≤ i := by omega
    have : s.get_data_row i = none := by
      unfold Sounding.get_data_row
      rw [if_pos hle]
    rw [rowsUpFrom_of_none this]
    rfl
  | succ n ih =>
    intro i hi
    have hlt : i < s.pressure.length := by omega
    have hrow : s.get_data_row i = some (s.mkRow i) := by
      unfold Sounding.get_data_row
      rw [if_neg (by omega)]
    rw [rowsUpFrom_of_some hrow, ih (i + 1) (by omega)]
    rw [List.range'_succ]
    rfl

theorem rowsDownFrom_spec (s : Sounding) :
    ∀ (n : Nat) (i : Int), i < (s.pressure.length : Int) → (i + 1).toNat = n →
      s.rowsDownFrom i = ((List.range' 0 n).map s.mkRow).reverse := by
  intro n
  induction n with
  | zero =>
    intro i _ hn
    have : i < 0 := by omega
    rw [rowsDownFrom_of_neg this]
    rfl
  | succ n ih =>
    intro i hlen hn
    have h0 : ¬i < 0 := by omega
    have hnat : i.toNat = n := by omega
    have hlt : i.toNat < s.pressure.length := by omega
    have hrow : s.get_data_row i.toNat = some (s.mkRow i.toNat) := by
      unfold Sounding.get_data_row
      rw [if_neg (by omega)]
    rw [rowsDownFrom_of_some h0 hrow, ih (i - 1) (by omega) (by omega)]
    rw [hnat, List.range'_concat, List.map_append, List.reverse_append]
    simp

/-- C8 -- for every sounding, `top_down()` produces exactly the rows of
`bottom_up()` in reverse order; in particular the first row of `top_down()`
is the last row of `bottom_up()`. -/
theorem top_down_reverse_bottom_up (s : Sounding) :
    s.top_down = s.bottom_up.reverse ∧ s.top_down.head? = s.bottom_up.getLast? := by
  have hup : s.bottom_up = (List.range' 0 s.pressure.length).map s.mkRow :=
    rowsUpFrom_spec s s.pressure.length 0 (by omega)
  have hdown : s.top_down =
      ((List.range' 0 s.pressure.length).map s.mkRow).reverse := by
    unfold Sounding.top_down
    exact rowsDownFrom_spec s s.pressure.length ((s.pressure.length : Int) - 1)
      (by omega) (by omega)
  constructor
  · rw [hup, hdown]
  · rw [hup, hdown]
    exact List.head?_reverse _

/-- Helper: on three present, strictly decreasing pressures with the target
equal to the middle one, the bracket scan skips the equal level and brackets
with the outer levels `(0, 2)`. -/
theorem bracketGo_skips_equal_middle (p0 p1 p2 : ℚ) (hp0 : p0 ≠ -9999)
    (hp1 : p1 ≠ -9999) (hp2 : p2 ≠ -9999) (h01 : p1 < p0) (h12 : p2 < p1) :
    bracketGo p1 [OptionVal.of p0, OptionVal.of p1, OptionVal.of p2] 0 0 = (0, 2) := by
  simp [bracketGo, OptionVal.as_option, OptionVal.of, hp0, hp1, hp2, h01, h12,
    lt_asymm h01, lt_asymm h12, MissingData.MISSING]

/-- Helper: on two present, strictly decreasing pressures with the target
equal to the first one, the bracket scan leaves `below_idx = 0` (pointing at
the equal level, which it never assigned) and breaks at index 1. -/
theorem bracketGo_equal_first (p0 p1 : ℚ) (hp0 : p0 ≠ -9999)
    (hp1 : p1 ≠ -9999) (h01 : p1 < p0) :
    bracketGo p0 [OptionVal.of p0, OptionVal.of p1] 0 0 = (0, 1) := by
  simp [bracketGo, OptionVal.as_option, OptionVal.of, hp0, hp1, h01,
    lt_asymm h01, MissingData.MISSING]

/-- Helper: the interpolated temperature at a target equal to the stored
middle pressure comes from the outer levels. -/
theorem interp_equal_middle_helper (p0 p1 p2 t0 t1 t2 : ℚ) (hp0 : p0 ≠ -9999)
    (hp1 : p1 ≠ -9999) (hp2 : p2 ≠ -9999) (ht0 : t0 ≠ -9999) (ht2 : t2 ≠ -9999)
    (h01 : p1 < p0) (h12 : p2 < p1) :
    (((Sounding.new.set_profile Profile.Pressure
        [OptionVal.of p0, OptionVal.of p1, OptionVal.of p2]).set_profile
        Profile.Temperature
        [OptionVal.of t0, OptionVal.of t1, OptionVal.of t2]).linear_interpolate
        p1).temperature =
      OptionVal.of (t0 + (p1 - p0) * (t2 - t0) / (p2 - p0)) := by
  have hb := bracketGo_skips_equal_middle p0 p1 p2 hp0 hp1 hp2 h01 h12
  unfold Sounding.linear_interpolate
  simp only [Sounding.set_profile, Sounding.new]
  rw [hb]
  simp [linInterpField, OptionVal.as_option, OptionVal.of, OptionVal.unwrap,
    List.getD, ht0, ht2, MissingData.MISSING, DataRow.defaultRow]

/-- Helper: the interpolated temperature at a target equal to the stored
first pressure is exactly the stored first temperature (`dp = 0`). -/
theorem interp_equal_first_helper (p0 p1 t0 t1 : ℚ) (hp0 : p0 ≠ -9999)
    (hp1 : p1 ≠ -9999) (ht0 : t0 ≠ -9999) (ht1 : t1 ≠ -9999) (h01 : p1 < p0) :
    (((Sounding.new.set_profile Profile.Pressure
        [OptionVal.of p0, OptionVal.of p1]).set_profile Profile.Temperature
        [OptionVal.of t0, OptionVal.of t1]).linear_interpolate p0).temperature =
      OptionVal.of t0 := by
  have hb := bracketGo_equal_first p0 p1 hp0 hp1 h01
  unfold Sounding.linear_interpolate
  simp only [Sounding.set_profile, Sounding.new]
  rw [hb]
  simp [linInterpField, OptionVal.as_option, OptionVal.of, OptionVal.unwrap,
    List.getD, ht0, ht1, MissingData.MISSING, DataRow.defaultRow]

/-- C3 counterexample -- interpolating at pressure `900`, which exactly
equals a stored level, does not return that level's stored temperature `100`:
the strict comparisons skip the equal level and interpolate between the
surrounding levels `1000` and `800`, yielding `5`. -/
theorem linear_interpolate_equal_level_cex :
    (c3Sounding.linear_interpolate 900).temperature = OptionVal.of 5 ∧
      c3Sounding.get_profile Profile.Pressure =
        [OptionVal.of 1000, OptionVal.of 900, OptionVal.of 800] ∧
      c3Sounding.get_profile Profile.Temperature =
        [OptionVal.of 0, OptionVal.of 100, OptionVal.of 10] ∧
      OptionVal.of (5 : ℚ) ≠ OptionVal.of 100 := by
  refine ⟨?_, rfl, rfl, by decide⟩
  have h := interp_equal_middle_helper 1000 900 800 0 100 10 (by norm_num)
    (by norm_num) (by norm_num) (by norm_num) (by norm_num) (by norm_num)
    (by norm_num)
  rw [show (0 : ℚ) + (900 - 1000) * (10 - 0) / (800 - 1000) = 5 by norm_num] at h
  exact h

/-- C3 amended -- when the target pressure exactly equals a stored level's
pressure, `linear_interpolate` does not return that level's stored values:
the strict comparisons skip the equal level, so with present levels strictly
above and below it, each field is interpolated between those surrounding
levels (here shown for temperature), bypassing the stored value; only in the
degenerate case where the equal level is the first (index 0) level does the
result coincide with its stored value, because then `dp = 0`. -/
theorem linear_interpolate_equal_level (p0 p1 p2 t0 t1 t2 : ℚ)
    (hp0 : p0 ≠ -9999) (hp1 : p1 ≠ -9999) (hp2 : p2 ≠ -9999)
    (ht0 : t0 ≠ -9999) (ht1 : t1 ≠ -9999) (ht2 : t2 ≠ -9999)
    (h01 : p1 < p0) (h12 : p2 < p1) :
    (((Sounding.new.set_profile Profile.Pressure
        [OptionVal.of p0, OptionVal.of p1, OptionVal.of p2]).set_profile
        Profile.Temperature
        [OptionVal.of t0, OptionVal.of t1, OptionVal.of t2]).linear_interpolate
        p1).temperature = OptionVal.of (t0 + (p1 - p0) * (t2 - t0) / (p2 - p0)) ∧
      (((Sounding.new.set_profile Profile.Pressure
        [OptionVal.of p0, OptionVal.of p1]).set_profile Profile.Temperature
        [OptionVal.of t0, OptionVal.of t1]).linear_interpolate p0).temperature =
        OptionVal.of t0 :=
  ⟨interp_equal_middle_helper p0 p1 p2 t0 t1 t2 hp0 hp1 hp2 ht0 ht2 h01 h12,
    interp_equal_first_helper p0 p1 t0 t1 hp0 hp1 ht0 ht1 h01⟩

/-- Witness for C3 amended: instantiated at pressures `1000 > 900 > 800` with
temperatures `0, 100, 10`. -/
theorem linear_interpolate_equal_level_witness :
    ((900 : ℚ) < 1000 ∧ (800 : ℚ) < 900) ∧
      ((((Sounding.new.set_profile Profile.Pressure
          [OptionVal.of 1000, OptionVal.of 900, OptionVal.of 800]).set_profile
          Profile.Temperature
          [OptionVal.of 0, OptionVal.of 100, OptionVal.of 10]).linear_interpolate
          900).temperature =
          OptionVal.of ((0 : ℚ) + (900 - 1000) * (10 - 0) / (800 - 1000)) ∧
        (((Sounding.new.set_profile Profile.Pressure
          [OptionVal.of 1000, OptionVal.of 900]).set_profile Profile.Temperature
          [OptionVal.of 0, OptionVal.of 100]).linear_interpolate 1000).temperature =
          OptionVal.of 0) :=
  ⟨⟨by norm_num, by norm_num⟩,
    linear_interpolate_equal_level 1000 900 800 0 100 10 (by norm_num)
      (by norm_num) (by norm_num) (by norm_num) (by norm_num) (by norm_num)
      (by norm_num) (by norm_num)⟩

theorem nearLoop_nil (t : ℚ) (i idx : Nat) (best : Option ℚ) :
    nearLoop t [] i idx best = idx := rfl

theorem nearLoop_cons (t : ℚ) (p : OptionVal ℚ) (rest : List (OptionVal ℚ))
    (i idx : Nat) (best : Option ℚ) :
    nearLoop t (p :: rest) i idx best =
      match p.as_option, best with
      | none, _ => nearLoop t rest (i + 1) idx best
      | some pv, none => nearLoop t rest (i + 1) i (some |t - pv|)
      | some pv, some b =>
        if |t - pv| < b then nearLoop t rest (i + 1) i (some |t - pv|)
        else if b < |t - pv| then idx
        else nearLoop t rest (i + 1) idx best := rfl

theorem nearLoop_cons_none {p : OptionVal ℚ} (hp : p.as_option = none)
    (t : ℚ) (rest : List (OptionVal ℚ)) (i idx : Nat) (best : Option ℚ) :
    nearLoop t (p :: rest) i idx best = nearLoop t rest (i + 1) idx best := by
  rw [nearLoop_cons, hp]

theorem nearLoop_cons_some_none {p : OptionVal ℚ} {pv : ℚ}
    (hp : p.as_option = some pv) (t : ℚ) (rest : List (OptionVal ℚ))
    (i idx : Nat) :
    nearLoop t (p :: rest) i idx none = nearLoop t rest (i + 1) i (some |t - pv|) := by
  rw [nearLoop_cons, hp]

theorem nearLoop_cons_some_some {p : OptionVal ℚ} {pv : ℚ}
    (hp : p.as_option = some pv) (t : ℚ) (rest : List (OptionVal ℚ))
    (i idx : Nat) (b : ℚ) :
    nearLoop t (p :: rest) i idx (some b) =
      if |t - pv| < b then nearLoop t rest (i + 1) i (some |t - pv|)
      else if b < |t - pv| then idx
      else nearLoop t rest (i + 1) idx (some b) := by
  rw [nearLoop_cons, hp]

theorem nearLoop_lt (t : ℚ) :
    ∀ (l : List (OptionVal ℚ)) (i idx : Nat) (best : Option ℚ) (N : Nat),
      idx < N → i + l.length ≤ N → nearLoop t l i idx best < N := by
  intro l
  induction l with
  | nil =>
    intro i idx best N h1 _
    rw [nearLoop_nil]
    exact h1
  | cons p rest ih =>
    intro i idx best N h1 h2
    have hlen : i + rest.length + 1 ≤ N := by
      simp only [List.length_cons] at h2
      omega
    cases hp : p.as_option with
    | none =>
      rw [nearLoop_cons_none hp]
      exact ih (i + 1) idx best N h1 (by omega)
    | some pv =>
      cases best with
      | none =>
        rw [nearLoop_cons_some_none hp]
        exact ih (i + 1) i (some |t - pv|) N (by omega) (by omega)
      | some b =>
        rw [nearLoop_cons_some_some hp]
        by_cases hlt : |t - pv| < b
        · rw [if_pos hlt]
          exact ih (i + 1) i (some |t - pv|) N (by omega) (by omega)
        · rw [if_neg hlt]
          by_cases hgt : b < |t - pv|
          · rw [if_pos hgt]
            exact h1
          · rw [if_neg hgt]
            exact ih (i + 1) idx (some b) N h1 (by omega)

/-- C9 -- `fetch_nearest_pnt` hits the `unwrap` panic (modelled as `none`)
exactly when the pressure profile is empty; for every sounding with a
non-empty pressure vector it returns a data row. -/
theorem fetch_nearest_pnt_none_iff (s : Sounding) (t : ℚ) :
    s.fetch_nearest_pnt t = none ↔ s.pressure = [] := by
  constructor
  · intro h
    by_contra hne
    have hlen : 0 < s.pressure.length := List.length_pos.2 hne
    have hlt : nearLoop t s.pressure 0 0 none < s.pressure.length :=
      nearLoop_lt t s.pressure 0 0 none s.pressure.length hlen (by omega)
    unfold Sounding.fetch_nearest_pnt Sounding.get_data_row at h
    rw [if_neg (by omega)] at h
    cases h
  · intro h
    unfold Sounding.fetch_nearest_pnt Sounding.get_data_row
    rw [if_pos (by rw [h]; exact Nat.le_refl 0)]

theorem presentPairs_nil (i : Nat) : presentPairs [] i = [] := rfl

theorem presentPairs_cons (p : OptionVal ℚ) (rest : List (OptionVal ℚ)) (i : Nat) :
    presentPairs (p :: rest) i =
      match p.as_option with
      | some v => (i, v) :: presentPairs rest (i + 1)
      | none => presentPairs rest (i + 1) := rfl

theorem presentPairs_cons_some {p : OptionVal ℚ} {v : ℚ}
    (hp : p.as_option = some v) (rest : List (OptionVal ℚ)) (i : Nat) :
    presentPairs (p :: rest) i = (i, v) :: presentPairs rest (i + 1) := by
  rw [presentPairs_cons, hp]

theorem presentPairs_cons_none {p : OptionVal ℚ} (hp : p.as_option = none)
    (rest : List (OptionVal ℚ)) (i : Nat) :
    presentPairs (p :: rest) i = presentPairs rest (i + 1) := by
  rw [presentPairs_cons, hp]

/-- Membership in `presentPairs` is exactly "a present entry at that
index". -/
theorem presentPairs_mem_iff :
    ∀ (l : List (OptionVal ℚ)) (i j : Nat) (v : ℚ),
      (j, v) ∈ presentPairs l i ↔
        i ≤ j ∧ ∃ o, l[j - i]? = some o ∧ o.as_option = some v := by
  intro l
  induction l with
  | nil =>
    intro i j v
    simp [presentPairs_nil]
  | cons p rest ih =>
    intro i j v
    cases hp : p.as_option with
    | none =>
      rw [presentPairs_cons_none hp, ih (i + 1) j v]
      constructor
      · rintro ⟨hij, o, ho, hov⟩
        refine ⟨by omega, o, ?_, hov⟩
        have : j - i = (j - (i + 1)) + 1 := by omega
        rw [this, List.getElem?_cons_succ]
        exact ho
      · rintro ⟨hij, o, ho, hov⟩
        rcases Nat.eq_or_lt_of_le hij with heq | hlt
        · exfalso
          subst heq
          simp only [Nat.sub_self, List.getElem?_cons_zero, Option.some.injEq] at ho
          rw [← ho] at hov
          rw [hp] at hov
          cases hov
        · refine ⟨by omega, o, ?_, hov⟩
          have : j - i = (j - (i + 1)) + 1 := by omega
          rw [this, List.getElem?_cons_succ] at ho
          exact ho
    | some v0 =>
      rw [presentPairs_cons_some hp]
      constructor
      · intro hmem
        rcases List.mem_cons.1 hmem with heq | hmem2
        · cases heq
          exact ⟨Nat.le_refl i, p, by simp, hp⟩
        · rcases (ih (i + 1) j v).1 hmem2 with ⟨hij, o, ho, hov⟩
          refine ⟨by omega, o, ?_, hov⟩
          have : j - i = (j - (i + 1)) + 1 := by omega
          rw [this, List.getElem?_cons_succ]
          exact ho
      · rintro ⟨hij, o, ho, hov⟩
        rcases Nat.eq_or_lt_of_le hij with heq | hlt
        · subst heq
          simp only [Nat.sub_self, List.getElem?_cons_zero, Option.some.injEq] at ho
          rw [← ho] at hov
          rw [hp] at hov
          cases hov
          exact List.mem_cons_self _ _
        · apply List.mem_cons_of_mem
          apply (ih (i + 1) j v).2
          refine ⟨by omega, o, ?_, hov⟩
          have : j - i = (j - (i + 1)) + 1 := by omega
          rw [this, List.getElem?_cons_succ] at ho
          exact ho

theorem presentPairs_le {l : List (OptionVal ℚ)} {i j : Nat} {v : ℚ}
    (h : (j, v) ∈ presentPairs l i) : i ≤ j :=
  ((presentPairs_mem_iff l i j v).1 h).1

/-- The positions in `presentPairs` are strictly increasing. -/
theorem presentPairs_pos_lt :
    ∀ (l : List (OptionVal ℚ)) (i : Nat),
      (presentPairs l i).Pairwise (fun a b => a.1 < b.1) := by
  intro l
  induction l with
  | nil => intro i; simp [presentPairs_nil]
  | cons p rest ih =>
    intro i
    cases hp : p.as_option with
    | none =>
      rw [presentPairs_cons_none hp]
      exact ih (i + 1)
    | some v =>
      rw [presentPairs_cons_some hp]
      refine List.Pairwise.cons ?_ (ih (i + 1))
      intro b hb
      have := presentPairs_le (l := rest) (i := i + 1) (j := b.1) (v := b.2) (by simpa using hb)
      omega

/-- In any non-empty list of pairs with strictly increasing positions there is
a first pair of minimal distance to the target. -/
theorem exists_first_argmin (t : ℚ) :
    ∀ P : List (Nat × ℚ), P ≠ [] → P.Pairwise (fun a b => a.1 < b.1) →
      ∃ jv ∈ P, (∀ kw ∈ P, |t - jv.2| ≤ |t - kw.2|) ∧
        ∀ kw ∈ P, kw.1 < jv.1 → |t - jv.2| < |t - kw.2| := by
  intro P
  induction P with
  | nil => intro h; exact absurd rfl h
  | cons x rest ih =>
    intro _ hpw
    have hhead : ∀ b ∈ rest, x.1 < b.1 := (List.pairwise_cons.1 hpw).1
    have htail : rest.Pairwise (fun a b => a.1 < b.1) := (List.pairwise_cons.1 hpw).2
    cases rest with
    | nil =>
      refine ⟨x, List.mem_cons_self _ _, ?_, ?_⟩
      · intro kw hkw
        rcases List.mem_singleton.1 hkw with rfl
        exact le_refl _
      · intro kw hkw hlt
        rcases List.mem_singleton.1 hkw with rfl
        omega
    | cons y rest2 =>
      rcases ih (by simp) htail with ⟨jv, hjmem, hjmin, hjfirst⟩
      by_cases hx : |t - x.2| ≤ |t - jv.2|
      · refine ⟨x, List.mem_cons_self _ _, ?_, ?_⟩
        · intro kw hkw
          rcases List.mem_cons.1 hkw with rfl | hkw2
          · exact le_refl _
          · exact le_trans hx (hjmin kw hkw2)
        · intro kw hkw hlt
          rcases List.mem_cons.1 hkw with rfl | hkw2
          · omega
          · exact absurd (hhead kw hkw2) (by omega)
      · push_neg at hx
        refine ⟨jv, List.mem_cons_of_mem _ hjmem, ?_, ?_⟩
        · intro kw hkw
          rcases List.mem_cons.1 hkw with rfl | hkw2
          · exact le_of_lt hx
          · exact hjmin kw hkw2
        · intro kw hkw hlt
          rcases List.mem_cons.1 hkw with rfl | hkw2
          · exact hx
          · exact hjfirst kw hkw2 hlt

theorem nearFullLoop_nil (t : ℚ) (i idx : Nat) (best : Option ℚ) :
    nearFullLoop t [] i idx best = idx := rfl

theorem nearFullLoop_cons (t : ℚ) (p : OptionVal ℚ) (rest : List (OptionVal ℚ))
    (i idx : Nat) (best : Option ℚ) :
    nearFullLoop t (p :: rest) i idx best =
      match p.as_option, best with
      | none, _ => nearFullLoop t rest (i + 1) idx best
      | some pv, none => nearFullLoop t rest (i + 1) i (some |t - pv|)
      | some pv, some b =>
        if |t - pv| < b then nearFullLoop t rest (i + 1) i (some |t - pv|)
        else nearFullLoop t rest (i + 1) idx (some b) := rfl

theorem nearFullLoop_cons_none {p : OptionVal ℚ} (hp : p.as_option = none)
    (t : ℚ) (rest : List (OptionVal ℚ)) (i idx : Nat) (best : Option ℚ) :
    nearFullLoop t (p :: rest) i idx best = nearFullLoop t rest (i + 1) idx best := by
  rw [nearFullLoop_cons, hp]

theorem nearFullLoop_cons_some_none {p : OptionVal ℚ} {pv : ℚ}
    (hp : p.as_option = some pv) (t : ℚ) (rest : List (OptionVal ℚ))
    (i idx : Nat) :
    nearFullLoop t (p :: rest) i idx none =
      nearFullLoop t rest (i + 1) i (some |t - pv|) := by
  rw [nearFullLoop_cons, hp]

theorem nearFullLoop_cons_some_some {p : OptionVal ℚ} {pv : ℚ}
    (hp : p.as_option = some pv) (t : ℚ) (rest : List (OptionVal ℚ))
    (i idx : Nat) (b : ℚ) :
    nearFullLoop t (p :: rest) i idx (some b) =
      if |t - pv| < b then nearFullLoop t rest (i + 1) i (some |t - pv|)
      else nearFullLoop t rest (i + 1) idx (some b) := by
  rw [nearFullLoop_cons, hp]

/-- When no remaining present entry improves on the running best distance,
the full scan keeps the current best index. -/
theorem nearFullLoop_no_improve (t : ℚ) :
    ∀ (l : List (OptionVal ℚ)) (i idx : Nat) (b : ℚ),
      (∀ kw ∈ presentPairs l i, ¬(|t - kw.2| < b)) →
      nearFullLoop t l i idx (some b) = idx := by
  intro l
  induction l with
  | nil => intro i idx b _; exact nearFullLoop_nil t i idx (some b)
  | cons p rest ih =>
    intro i idx b hno
    cases hp : p.as_option with
    | none =>
      rw [nearFullLoop_cons_none hp]
      apply ih
      intro kw hkw
      exact hno kw (by rw [presentPairs_cons_none hp]; exact hkw)
    | some pv =>
      rw [nearFullLoop_cons_some_some hp]
      have hpvmem : (i, pv) ∈ presentPairs (p :: rest) i := by
        rw [presentPairs_cons_some hp]
        exact List.mem_cons_self _ _
      rw [if_neg (hno (i, pv) hpvmem)]
      apply ih
      intro kw hkw
      exact hno kw (by rw [presentPairs_cons_some hp]; exact List.mem_cons_of_mem _ hkw)

/-- Break-safety: on a stored sequence whose present pressures are
non-increasing, and with a running best distance that is the distance to some
pressure dominating every remaining value (the invariant of the scan), the
early-exit loop of `fetch_nearest_pnt` computes the same index as the full
scan. -/
theorem nearLoop_eq_full (t : ℚ) :
    ∀ (l : List (OptionVal ℚ)) (i idx : Nat) (best : Option ℚ),
      (presentPairs l i).Pairwise (fun a b => b.2 ≤ a.2) →
      (∀ b, best = some b →
        ∃ pj, b = |t - pj| ∧ ∀ kw ∈ presentPairs l i, kw.2 ≤ pj) →
      nearLoop t l i idx best = nearFullLoop t l i idx best := by
  intro l
  induction l with
  | nil => intro i idx best _ _; rw [nearLoop_nil, nearFullLoop_nil]
  | cons p rest ih =>
    intro i idx best hpw hinv
    cases hp : p.as_option with
    | none =>
      rw [nearLoop_cons_none hp, nearFullLoop_cons_none hp]
      apply ih
      · rw [presentPairs_cons_none hp] at hpw
        exact hpw
      · intro b hb
        rcases hinv b hb with ⟨pj, hbj, hall⟩
        exact ⟨pj, hbj, fun kw hkw =>
          hall kw (by rw [presentPairs_cons_none hp]; exact hkw)⟩
    | some pv =>
      rw [presentPairs_cons_some hp] at hpw
      have hhead : ∀ kw ∈ presentPairs rest (i + 1), kw.2 ≤ pv :=
        (List.pairwise_cons.1 hpw).1
      have htail : (presentPairs rest (i + 1)).Pairwise (fun a b => b.2 ≤ a.2) :=
        (List.pairwise_cons.1 hpw).2
      cases best with
      | none =>
        rw [nearLoop_cons_some_none hp, nearFullLoop_cons_some_none hp]
        exact ih (i + 1) i (some |t - pv|) htail
          (fun b hb => ⟨pv, by cases hb; rfl, hhead⟩)
      | some b =>
        rcases hinv b rfl with ⟨pj, hbj, hall⟩
        have hpvj : pv ≤ pj := hall (i, pv)
          (by rw [presentPairs_cons_some hp]; exact List.mem_cons_self _ _)
        rw [nearLoop_cons_some_some hp, nearFullLoop_cons_some_some hp]
        by_cases hlt : |t - pv| < b
        · rw [if_pos hlt, if_pos hlt]
          exact ih (i + 1) i (some |t - pv|) htail
            (fun b2 hb2 => ⟨pv, by cases hb2; rfl, hhead⟩)
        · rw [if_neg hlt, if_neg hlt]
          by_cases hgt : b < |t - pv|
          · rw [if_pos hgt]
            -- the break: every remaining present value is even further away
            have hpvt : pv < t := by
              by_contra hc
              push_neg at hc
              have h1 : |t - pv| = pv - t := by
                rw [abs_sub_comm]
                exact abs_of_nonneg (by linarith)
              have h2 : |t - pj| = pj - t := by
                rw [abs_sub_comm]
                exact abs_of_nonneg (by linarith)
              rw [hbj] at hgt
              rw [h1, h2] at hgt
              linarith
            symm
            apply nearFullLoop_no_improve
            intro kw hkw
            have hkwpv : kw.2 ≤ pv := hhead kw hkw
            have h1 : |t - pv| = t - pv := abs_of_pos (by linarith)
            have h2 : |t - kw.2| = t - kw.2 := abs_of_pos (by linarith)
            rw [h2]
            rw [h1] at hgt
            intro hc
            linarith
          · rw [if_neg hgt]
            exact ih (i + 1) idx (some b) htail
              (fun b2 hb2 => by
                cases hb2
                exact ⟨pj, hbj, fun kw hkw => hall kw
                  (by rw [presentPairs_cons_some hp]; exact List.mem_cons_of_mem _ hkw)⟩)

theorem ltB_none (d : ℚ) : ltB d none := trivial

theorem ltB_some {d b : ℚ} : ltB d (some b) ↔ d < b := Iff.rfl

/-- The full scan lands on the first present pair of minimal distance among
those improving on the running best. -/
theorem nearFull_first_argmin (t : ℚ) :
    ∀ (l : List (OptionVal ℚ)) (i idx : Nat) (best : Option ℚ) (j : Nat) (v : ℚ),
      (j, v) ∈ presentPairs l i →
      ltB |t - v| best →
      (∀ kw ∈ presentPairs l i, ltB |t - kw.2| best → |t - v| ≤ |t - kw.2|) →
      (∀ kw ∈ presentPairs l i, kw.1 < j → ltB |t - kw.2| best → |t - v| < |t - kw.2|) →
      nearFullLoop t l i idx best = j := by
  intro l
  induction l with
  | nil =>
    intro i idx best j v hmem _ _ _
    rw [presentPairs_nil] at hmem
    exact absurd hmem (List.not_mem_nil _)
  | cons p rest ih =>
    intro i idx best j v hmem hbest hmin hfirst
    cases hp : p.as_option with
    | none =>
      rw [presentPairs_cons_none hp] at hmem hmin hfirst
      rw [nearFullLoop_cons_none hp]
      exact ih (i + 1) idx best j v hmem hbest hmin hfirst
    | some pv =>
      rw [presentPairs_cons_some hp] at hmem hmin hfirst
      have hheadmem : (i, pv) ∈ (i, pv) :: presentPairs rest (i + 1) :=
        List.mem_cons_self _ _
      cases best with
      | none =>
        rw [nearFullLoop_cons_some_none hp]
        rcases List.mem_cons.1 hmem with heq | hmem2
        · cases heq
          apply nearFullLoop_no_improve
          intro kw hkw hc
          have := hmin kw (List.mem_cons_of_mem _ hkw) (ltB_none _)
          linarith
        · have hij : i < j := by
            have := presentPairs_le hmem2
            omega
          apply ih (i + 1) i (some |t - pv|) j v hmem2
          · exact ltB_some.2 (hfirst (i, pv) hheadmem hij (ltB_none _))
          · intro kw hkw _
            exact hmin kw (List.mem_cons_of_mem _ hkw) (ltB_none _)
          · intro kw hkw hklt _
            exact hfirst kw (List.mem_cons_of_mem _ hkw) hklt (ltB_none _)
      | some b =>
        rw [nearFullLoop_cons_some_some hp]
        by_cases hlt : |t - pv| < b
        · rw [if_pos hlt]
          rcases List.mem_cons.1 hmem with heq | hmem2
          · cases heq
            apply nearFullLoop_no_improve
            intro kw hkw hc
            by_cases hkb : |t - kw.2| < b
            · have := hmin kw (List.mem_cons_of_mem _ hkw) (ltB_some.2 hkb)
              linarith
            · linarith
          · have hij : i < j := by
              have := presentPairs_le hmem2
              omega
            apply ih (i + 1) i (some |t - pv|) j v hmem2
            · exact ltB_some.2 (hfirst (i, pv) hheadmem hij (ltB_some.2 hlt))
            · intro kw hkw h2
              exact hmin kw (List.mem_cons_of_mem _ hkw)
                (ltB_some.2 (lt_trans (ltB_some.1 h2) hlt))
            · intro kw hkw hklt h2
              exact hfirst kw (List.mem_cons_of_mem _ hkw) hklt
                (ltB_some.2 (lt_trans (ltB_some.1 h2) hlt))
        · rw [if_neg hlt]
          rcases List.mem_cons.1 hmem with heq | hmem2
          · exfalso
            cases heq
            exact hlt (ltB_some.1 hbest)
          · apply ih (i + 1) idx (some b) j v hmem2 hbest
            · intro kw hkw h2
              exact hmin kw (List.mem_cons_of_mem _ hkw) h2
            · intro kw hkw hklt h2
              exact hfirst kw (List.mem_cons_of_mem _ hkw) hklt h2

/-- C6 amended -- for every sounding with at least one present pressure whose
present pressures are non-increasing in stored order, `fetch_nearest_pnt`
returns the data row of the stored level with minimum `|pressure - target|`
over the stored pressure sequence (the surface pressure is not consulted),
with ties broken in favor of the first level in stored order; the early exit
after the distance starts increasing does not change the result on such
monotonic input.  (`presentPairs s.pressure 0` lists the `(index, value)`
pairs of the present stored pressures; see `presentPairs_mem_iff`.) -/
theorem fetch_nearest_pnt_first_argmin (s : Sounding) (t : ℚ)
    (hne : presentPairs s.pressure 0 ≠ [])
    (hmono : (presentPairs s.pressure 0).Pairwise (fun a b => b.2 ≤ a.2)) :
    ∃ j v, (j, v) ∈ presentPairs s.pressure 0 ∧
      (∀ kw ∈ presentPairs s.pressure 0, |t - v| ≤ |t - kw.2|) ∧
      (∀ kw ∈ presentPairs s.pressure 0, kw.1 < j → |t - v| < |t - kw.2|) ∧
      s.fetch_nearest_pnt t = s.get_data_row j := by
  rcases exists_first_argmin t _ hne (presentPairs_pos_lt _ _) with
    ⟨jv, hjm, hjmin, hjfirst⟩
  refine ⟨jv.1, jv.2, by simpa using hjm, hjmin, hjfirst, ?_⟩
  unfold Sounding.fetch_nearest_pnt
  congr 1
  rw [nearLoop_eq_full t s.pressure 0 0 none hmono (fun b hb => nomatch hb)]
  exact nearFull_first_argmin t s.pressure 0 0 none jv.1 jv.2 (by simpa using hjm)
    (ltB_none _) (fun kw hkw _ => hjmin kw hkw) (fun kw hkw hklt _ => hjfirst kw hkw hklt)

/-- C6 counterexample -- `fetch_nearest_pnt` does not consult the surface
pressure: with stored level `1000`, surface pressure `900` and target `900`,
the minimum of `|p - 900|` over the surface-prefixed sequence `[900, 1000]`
is attained by the surface pressure (distance `0 < 100`), yet the function
returns the row of the stored level `1000`. -/
theorem fetch_nearest_pnt_ignores_surface_cex :
    c6Sounding.fetch_nearest_pnt 900 = some (c6Sounding.mkRow 0) ∧
      (c6Sounding.mkRow 0).pressure = OptionVal.of 1000 ∧
      c6Sounding.get_surface_value Surface.StationPressure = OptionVal.of 900 ∧
      |(900 : ℚ) - 900| < |(900 : ℚ) - 1000| ∧
      OptionVal.of (1000 : ℚ) ≠ OptionVal.of 900 := by
  have hp : (OptionVal.of (1000 : ℚ)).as_option = some 1000 := by decide
  have hloop : nearLoop 900 [OptionVal.of 1000] 0 0 none = 0 := by
    rw [nearLoop_cons_some_none hp, nearLoop_nil]
  refine ⟨?_, rfl, rfl, ?_, by decide⟩
  · show c6Sounding.get_data_row (nearLoop 900 c6Sounding.pressure 0 0 none) =
      some (c6Sounding.mkRow 0)
    have hpres : c6Sounding.pressure = [OptionVal.of 1000] := rfl
    rw [hpres, hloop]
    unfold Sounding.get_data_row
    rw [if_neg (by rw [hpres]; simp)]
  · rw [show (900 : ℚ) - 900 = 0 by ring, abs_zero]
    exact abs_pos.2 (by norm_num)

/-- Witness for C6 amended: the hypotheses hold for the stored sequence
`[900, 800, 700, 500]`, and the theorem applies at target `750`. -/
theorem fetch_nearest_pnt_first_argmin_witness :
    presentPairs c6wSounding.pressure 0 ≠ [] ∧
      (presentPairs c6wSounding.pressure 0).Pairwise (fun a b => b.2 ≤ a.2) ∧
      ∃ j v, (j, v) ∈ presentPairs c6wSounding.pressure 0 ∧
        (∀ kw ∈ presentPairs c6wSounding.pressure 0, |(750 : ℚ) - v| ≤ |(750 : ℚ) - kw.2|) ∧
        (∀ kw ∈ presentPairs c6wSounding.pressure 0, kw.1 < j → |(750 : ℚ) - v| < |(750 : ℚ) - kw.2|) ∧
        c6wSounding.fetch_nearest_pnt 750 = c6wSounding.get_data_row j :=
  ⟨by decide, by decide,
    fetch_nearest_pnt_first_argmin c6wSounding 750 (by decide) (by decide)⟩

/-- The two normalization loops send any value of `(-180, 180]` (the range of
`atan2` in degrees) into `[0, 360)`. -/
theorem normDown_normUp_mem {d : ℝ} (h1 : -180 < d) (h2 : d ≤ 180) :
    normDown (normUp d) ∈ Set.Ico (0 : ℝ) 360 := by
  by_cases hd : 0 ≤ d
  · have hc1 : ⌈-d / 360⌉ ≤ (0 : ℤ) := by
      rw [Int.ceil_le]
      push_cast
      apply div_nonpos_of_nonpos_of_nonneg <;> linarith
    have hup : normUp d = d := by
      unfold normUp
      rw [max_eq_left hc1]
      push_cast
      ring
    have hc2 : ⌈(d - 360) / 360⌉ ≤ (0 : ℤ) := by
      rw [Int.ceil_le]
      push_cast
      apply div_nonpos_of_nonpos_of_nonneg <;> linarith
    have hdown : normDown d = d := by
      unfold normDown
      rw [max_eq_left hc2]
      push_cast
      ring
    rw [hup, hdown]
    exact ⟨hd, by linarith⟩
  · push_neg at hd
    have hc1 : ⌈-d / 360⌉ = (1 : ℤ) := by
      rw [Int.ceil_eq_iff]
      push_cast
      constructor
      · have : (0 : ℝ) < -d / 360 := div_pos (by linarith) (by norm_num)
        linarith
      · rw [div_le_one (by norm_num)]
        linarith
    have hup : normUp d = d + 360 := by
      unfold normUp
      rw [hc1]
      norm_num
    have hc2 : ⌈(d + 360 - 360) / 360⌉ ≤ (0 : ℤ) := by
      rw [Int.ceil_le]
      push_cast
      apply div_nonpos_of_nonpos_of_nonneg <;> linarith
    have hdown : normDown (d + 360) = d + 360 := by
      unfold normDown
      rw [max_eq_left hc2]
      push_cast
      ring
    rw [hup, hdown]
    constructor
    · linarith
    · linarith

/-- The recombined angle, in degrees, lies in `(-180, 180]`. -/
theorem toDegrees_atan2_bounds (x y : ℝ) :
    -180 < toDegrees (atan2 x y) ∧ toDegrees (atan2 x y) ≤ 180 := by
  have h1 := Complex.neg_pi_lt_arg ⟨y, x⟩
  have h2 := Complex.arg_le_pi (⟨y, x⟩ : ℂ)
  have hpi := Real.pi_pos
  have hfrac : (0 : ℝ) < 180 / Real.pi := div_pos (by norm_num) hpi
  unfold toDegrees atan2
  constructor
  · have hlt := mul_lt_mul_of_pos_right h1 hfrac
    have heq : -Real.pi * (180 / Real.pi) = -180 := by
      field_simp
      ring
    linarith
  · have hle := mul_le_mul_of_nonneg_right h2 hfrac.le
    have heq : Real.pi * (180 / Real.pi) = 180 := by
      field_simp
    linarith

/-- Every direction produced by `interp_direction` lies in `[0, 360)`. -/
theorem interp_direction_mem (db da dp run : ℝ) :
    interp_direction db da dp run ∈ Set.Ico (0 : ℝ) 360 := by
  unfold interp_direction
  exact normDown_normUp_mem (toDegrees_atan2_bounds _ _).1 (toDegrees_atan2_bounds _ _).2

/-- At the midpoint (`dp/run = 1/2`) between directions `350` and `10`, the
averaged sine component vanishes, the averaged cosine component is positive,
and the recombined, normalized direction is exactly `0` -- not `180`. -/
theorem interp_direction_350_10 : interp_direction 350 10 (-50) (-100) = 0 := by
  have h350 : toRadians 350 = 2 * Real.pi - toRadians 10 := by
    unfold toRadians
    ring
  have hx : Real.sin (toRadians 350) +
      (-50) * (Real.sin (toRadians 10) - Real.sin (toRadians 350)) / (-100) = 0 := by
    rw [h350, Real.sin_two_pi_sub]
    ring
  have hy : Real.cos (toRadians 350) +
      (-50) * (Real.cos (toRadians 10) - Real.cos (toRadians 350)) / (-100) =
      Real.cos (toRadians 10) := by
    rw [h350, Real.cos_two_pi_sub]
    ring
  have hpi := Real.pi_pos
  have hcos : 0 < Real.cos (toRadians 10) := by
    apply Real.cos_pos_of_mem_Ioo
    rw [Set.mem_Ioo]
    unfold toRadians
    constructor <;> linarith
  have hatan : atan2 0 (Real.cos (toRadians 10)) = 0 := by
    unfold atan2
    exact Complex.arg_ofReal_of_nonneg hcos.le
  have htd : toDegrees 0 = 0 := by
    unfold toDegrees
    ring
  have hup : normUp 0 = 0 := by
    unfold normUp
    norm_num
  have hdown : normDown 0 = 0 := by
    unfold normDown
    rw [show ((0 : ℝ) - 360) / 360 = ((-1 : ℤ) : ℝ) by norm_num, Int.ceil_intCast]
    norm_num
  unfold interp_direction
  rw [hx, hy, hatan, htd, hup, hdown]

/-- C4 -- whenever `linear_interpolate` brackets the target between two
levels with both wind directions present, the direction is computed
circularly (sine/cosine decomposition, componentwise linear interpolation,
`atan2` recombination) and the normalized result lies in `[0, 360)`; in
particular, interpolating between directions `350` and `10` at the midpoint
pressure `950` (between `1000` and `900`) yields exactly `0`, never `180`. -/
theorem linear_interpolate_direction_circular :
    (∀ (s : Sounding) (t : ℚ) (d : ℝ),
      s.linear_interpolate_direction t = some d → d ∈ Set.Ico (0 : ℝ) 360) ∧
      c4Sounding.linear_interpolate_direction 950 = some 0 := by
  constructor
  · intro s t d h
    unfold Sounding.linear_interpolate_direction at h
    split at h
    · split at h
      · split at h
        · rename_i db da _ _
          injection h with h
          rw [← h]
          exact interp_direction_mem _ _ _ _
        · cases h
      · cases h
    · cases h
  · have hb : bracketGo 950 c4Sounding.pressure 0 0 = (0, 1) := by decide
    have hd350 : ((OptionVal.of (350 : ℚ)).as_option) = some 350 := by decide
    have hd10 : ((OptionVal.of (10 : ℚ)).as_option) = some 10 := by decide
    unfold Sounding.linear_interpolate_direction
    rw [hb]
    have hdir : c4Sounding.direction = [OptionVal.of 350, OptionVal.of 10] := rfl
    have hpres : c4Sounding.pressure = [OptionVal.of 1000, OptionVal.of 900] := rfl
    rw [hdir, hpres]
    rw [if_pos (by norm_num), if_pos (by simp)]
    simp only [List.getD_cons_zero, List.getD_cons_succ, hd350, hd10]
    have hcast1 : (((350 : ℚ) : ℝ)) = 350 := by norm_num
    have hcast2 : (((10 : ℚ) : ℝ)) = 10 := by norm_num
    have hcast3 : ((((950 : ℚ) - (OptionVal.of (1000 : ℚ)).unwrap : ℚ)) : ℝ) = -50 := by
      norm_num [OptionVal.unwrap, OptionVal.of]
    have hcast4 : ((((OptionVal.of (900 : ℚ)).unwrap -
        (OptionVal.of (1000 : ℚ)).unwrap : ℚ)) : ℝ) = -100 := by
      norm_num [OptionVal.unwrap, OptionVal.of]
    rw [hcast1, hcast2, hcast3, hcast4, interp_direction_350_10]

/-- Witness for C4: the universally quantified range statement applied to the
concrete midpoint instance produced by the second conjunct. -/
theorem linear_interpolate_direction_circular_witness :
    (0 : ℝ) ∈ Set.Ico (0 : ℝ) 360 :=
  linear_interpolate_direction_circular.1 c4Sounding 950 0
    linear_interpolate_direction_circular.2

/-- Witness for C9: on the default (empty) sounding the `unwrap` would panic
(the result is `none`), consistent with the empty pressure vector. -/
theorem fetch_nearest_pnt_none_iff_witness :
    Sounding.new.fetch_nearest_pnt 0 = none ↔ Sounding.new.pressure = [] :=
  fetch_nearest_pnt_none_iff Sounding.new 0
